import Mathlib

/-!
Verification of the simple-depot payload pipeline.

Go strings are modelled as lists of characters (`Str`).  Helper functions
transcribe, one for one, the Go standard-library operations the repository
uses (`strings.HasPrefix`, `strings.Split`, `strings.Join`,
`strings.TrimSuffix`, `strings.Contains`, `filepath.Ext`, `filepath.Base`
on a Unix separator, `hex.EncodeToString`, decimal formatting of `%d`,
`base64.StdEncoding.EncodeToString`).  External effects (the randomness
source, `mime.ParseMediaType`, the multipart part reader, the storage
gateway) are passed in as explicit oracle values, so every function is a
pure, executable definition.
-/

namespace SimpleDepot

abbrev Str := List Char

/-- Go `strings.HasPrefix s pre`. -/
def startsWith (s pre : Str) : Bool := pre.isPrefixOf s

/-- Go `strings.HasSuffix s suf`. -/
def endsWith (s suf : Str) : Bool := suf.isSuffixOf s

/-- Go `strings.Contains s sub`. -/
def containsStr : Str → Str → Bool
  | [], sub => sub.isEmpty
  | c :: rest, sub => sub.isPrefixOf (c :: rest) || containsStr rest sub

/-- Go `strings.TrimSuffix s suf`: drop `suf` from the end when present. -/
def trimSuffix (s suf : Str) : Str :=
  if suf.isSuffixOf s then s.take (s.length - suf.length) else s

/-- Go `strings.Split s (String sep)` for a one-character separator. -/
def splitOnChar (sep : Char) : Str → List Str
  | [] => [[]]
  | c :: rest =>
    match splitOnChar sep rest with
    | [] => [[c]]
    | h :: t => if c = sep then [] :: h :: t else (c :: h) :: t

/-- Go `strings.Join parts (String sep)` for a one-character separator. -/
def joinChar (sep : Char) : List Str → Str
  | [] => []
  | [x] => x
  | x :: y :: rest => x ++ sep :: joinChar sep (y :: rest)

/-- Scan a reversed path for the extension: `filepath.Ext` walks the path
backwards, stops at a path separator, and returns the suffix from the last
dot.  The result here is the extension reversed; `none` when there is no
dot in the final path element. -/
def extRev : Str → Option Str
  | [] => none
  | c :: rest =>
    if c = '/' then none
    else if c = '.' then some ['.']
    else (extRev rest).map (fun e => c :: e)

/-- Go `filepath.Ext` (Unix separator). -/
def goExt (path : Str) : Str :=
  match extRev path.reverse with
  | none => []
  | some e => e.reverse

/-- Go `filepath.Base` (Unix separator): empty path gives `"."`, trailing
separators are stripped, then everything up to the last separator is
dropped; a path of only separators gives `"/"`. -/
def goBase (path : Str) : Str :=
  if path = [] then ['.']
  else
    let r := path.reverse.dropWhile (fun c => c = '/')
    let seg := r.takeWhile (fun c => c ≠ '/')
    if seg = [] then ['/'] else seg.reverse

/-- Decimal digits of `n` (most significant first), with fuel for
structural recursion; `decDigitsAux n n` is exact for positive `n`. -/
def decDigitsAux : Nat → Nat → Str
  | 0, _ => []
  | fuel + 1, n => if n = 0 then [] else decDigitsAux fuel (n / 10) ++ [Nat.digitChar (n % 10)]

/-- Go `fmt.Sprintf "%d" n` for a non-negative integer. -/
def natDec (n : Nat) : Str := if n = 0 then ['0'] else decDigitsAux n n

/-- Go `hex.EncodeToString`: two lowercase hex digits per byte. -/
def hexEncode : List Nat → Str
  | [] => []
  | b :: rest => Nat.digitChar (b / 16 % 16) :: Nat.digitChar (b % 16) :: hexEncode rest

/-- Model of `DefaultIDGenerator.Generate` / `generateUniqueID`: the Unix timestamp,
an underscore, then eight random bytes hex-encoded; when the randomness
source fails (`randomBytes = none`), the fallback is the timestamp, an
underscore, and the nanosecond timestamp. -/
def generate (timestamp : Nat) (randomBytes : Option (List Nat)) (nano : Nat) : Str :=
  match randomBytes with
  | none => natDec timestamp ++ '_' :: natDec nano
  | some bs => natDec timestamp ++ '_' :: hexEncode bs

/-- Shape of every generated EventID: a nonempty underscore-free token, one
underscore, then an underscore-free token. -/
def idShape (id : Str) : Prop :=
  ∃ a b : Str, id = a ++ '_' :: b ∧ a ≠ [] ∧ '_' ∉ a ∧ '_' ∉ b

def octetStream : Str := "application/octet-stream".data

/-- ASCII lowering, the fragment of Go `strings.ToLower` relevant to the
extension table (all compared extensions are ASCII). -/
def asciiLower (c : Char) : Char :=
  if 'A' ≤ c ∧ c ≤ 'Z' then Char.ofNat (c.toNat + 32) else c

/-- Model of `DefaultContentTypeDetector.DetectFromFilename`: fixed extension table
on the lowercased `filepath.Ext` of the filename. -/
def detectFromFilename (filename : Str) : Str :=
  if filename = [] then octetStream
  else
    let ext := (goExt filename).map asciiLower
    if ext = ".json".data then "application/json".data
    else if ext = ".txt".data then "text/plain".data
    else if ext = ".pdf".data then "application/pdf".data
    else if ext = ".jpg".data ∨ ext = ".jpeg".data then "image/jpeg".data
    else if ext = ".png".data then "image/png".data
    else if ext = ".gif".data then "image/gif".data
    else if ext = ".html".data ∨ ext = ".htm".data then "text/html".data
    else if ext = ".css".data then "text/css".data
    else if ext = ".js".data then "application/javascript".data
    else octetStream

/-- Model of `DefaultContentTypeDetector.DetectFromContentType`: empty or unparsable
headers normalize to the generic binary type, otherwise the bare media
type returned by `mime.ParseMediaType` (passed in as an oracle). -/
def detectFromContentType (parseMediaType : Str → Option Str) (contentType : Str) : Str :=
  if contentType = [] then octetStream
  else
    match parseMediaType contentType with
    | none => octetStream
    | some mediaType => mediaType

/-- Extension chosen from the content type in `generateObjectName`
(`payload_processor.go`): substring scan in fixed priority order. -/
def ctExt (contentType : Str) : Str :=
  if containsStr contentType "json".data then ".json".data
  else if containsStr contentType "text".data then ".txt".data
  else if containsStr contentType "image".data then ".img".data
  else if containsStr contentType "multipart".data then ".multipart".data
  else ".bin".data

/-- Model of `DefaultPayloadProcessor.generateObjectName`: a non-empty filename
contributes `base` (its `filepath.Base` with the extension trimmed) and
`ext` (its `filepath.Ext`); an empty filename yields
`requestID_payload` + an extension from the content type. -/
def generateObjectName (requestID originalFilename contentType : Str) : Str :=
  if originalFilename ≠ [] then
    let ext := goExt originalFilename
    let base := trimSuffix (goBase originalFilename) ext
    requestID ++ '_' :: (base ++ ext)
  else
    requestID ++ '_' :: ("payload".data ++ ctExt contentType)

/-- Model of `MultipartPayloadProcessor.generateObjectName`. -/
def mpGenerateObjectName (requestID filename : Str) : Str :=
  if filename = [] then requestID ++ '_' :: "payload.bin".data
  else
    let ext := goExt filename
    let base := trimSuffix (goBase filename) ext
    requestID ++ '_' :: (base ++ ext)

/-- The `ProcessedPayload` record of the `storage_interface` declarations. -/
structure ProcessedPayload where
  objectName : Str
  data : List Nat
  contentType : Str
  filename : Str
deriving DecidableEq, Repr

/-- One part yielded by the multipart reader: its declared filename and the
outcome of `io.ReadAll` on its body (`none` models a read failure). -/
structure MPart where
  fileName : Str
  content : Option (List Nat)
deriving DecidableEq, Repr

/-- Outcome of walking the multipart stream: the parts `NextPart` yielded,
and whether the walk ended in a non-EOF `NextPart` error. -/
structure MPStream where
  parts : List MPart
  terminalErr : Bool
deriving DecidableEq, Repr

/-- The part loop of `MultipartPayloadProcessor.Process`: parts without a
filename are skipped, a part whose body cannot be read is skipped
(`continue`), every other part becomes one payload in order. -/
def mpUnits (requestID : Str) : List MPart → List ProcessedPayload
  | [] => []
  | p :: rest =>
    if p.fileName = [] then mpUnits requestID rest
    else
      match p.content with
      | none => mpUnits requestID rest
      | some d =>
        { objectName := mpGenerateObjectName requestID p.fileName
          data := d
          contentType := detectFromFilename p.fileName
          filename := p.fileName } :: mpUnits requestID rest

/-- Model of `MultipartPayloadProcessor.Process`: fails when `mime.ParseMediaType`
fails (`parseOk = false`) or when `NextPart` returns a non-EOF error;
otherwise returns the payloads collected by the part loop. -/
def mpProcess (requestID : Str) (parseOk : Bool) (stream : MPStream) :
    Except Str (List ProcessedPayload) :=
  if parseOk = false then .error "error parsing media type".data
  else if stream.terminalErr then .error "error reading part".data
  else .ok (mpUnits requestID stream.parts)

/-- Model of `DefaultPayloadProcessor.Process`: normalize the declared content type,
dispatch multipart bodies to the multipart processor (whose reader outcome
is the `parseOk`/`stream` oracle), otherwise emit a single payload whose
content type prefers the filename signal unless that signal is the generic
binary type. -/
def processPayload (parseMediaType : Str → Option Str) (parseOk : Bool) (stream : MPStream)
    (requestID : Str) (data : List Nat) (contentType filename : Str) :
    Except Str (List ProcessedPayload) :=
  let normalized := detectFromContentType parseMediaType contentType
  if startsWith normalized "multipart/form-data".data then
    mpProcess requestID parseOk stream
  else
    let objectName := generateObjectName requestID filename normalized
    let fileBased := detectFromFilename filename
    let finalContentType :=
      if filename ≠ [] ∧ fileBased ≠ octetStream then fileBased else normalized
    .ok [{ objectName := objectName, data := data,
           contentType := finalContentType, filename := filename }]

/-- The match test of `RetrievePayloads`: object names are kept when they
start with `requestID + "_"` or with `requestID + "_payload"`. -/
def matchFilter (requestID obj : Str) : Bool :=
  startsWith obj (requestID ++ ['_']) || startsWith obj (requestID ++ '_' :: "payload".data)

/-- Model of `DefaultPayloadService.determineContentType`: suffix table on the
stored object name. -/
def determineContentType (objectName : Str) : Str :=
  if endsWith objectName ".json".data then "application/json".data
  else if endsWith objectName ".txt".data then "text/plain".data
  else if endsWith objectName ".img".data then octetStream
  else if endsWith objectName ".multipart".data then "multipart/form-data".data
  else octetStream

/-- Model of `DefaultPayloadService.extractOriginalFilename`: split the object name
on underscores; with more than two tokens, rejoin everything from the
third token on and report it unless it starts with `payload`; otherwise
report no original filename. -/
def extractOriginalFilename (objectName : Str) : Str :=
  let parts := splitOnChar '_' objectName
  if parts.length > 2 then
    let filenameWithExt := joinChar '_' (parts.drop 2)
    if startsWith filenameWithExt "payload".data then []
    else filenameWithExt
  else []

def base64Table : Str := "ABCDEFGHIJKLMNOPQRSTUVWXYZabcdefghijklmnopqrstuvwxyz0123456789+/".data

def b64Char (n : Nat) : Char := base64Table.getD n '='

/-- Go `base64.StdEncoding.EncodeToString`. -/
def base64Encode : List Nat → Str
  | [] => []
  | [a] => [b64Char (a / 4 % 64), b64Char (a % 4 * 16), '=', '=']
  | [a, b] => [b64Char (a / 4 % 64), b64Char (a % 4 * 16 + b / 16 % 16), b64Char (b % 16 * 4), '=']
  | a :: b :: c :: rest =>
    b64Char (a / 4 % 64) :: b64Char (a % 4 * 16 + b / 16 % 16) ::
      b64Char (b % 16 * 4 + c / 64 % 4) :: b64Char (c % 64) :: base64Encode rest

/-- The `FileInfo` record of the response formatter. -/
structure FileInfo where
  objectName : Str
  originalFilename : Str
  size : Nat
  contentType : Str
  payloadBase64 : Str
deriving DecidableEq, Repr

/-- Model of `DefaultResponseFormatter.FormatFileInfo`. -/
def formatFileInfo (objectName originalFilename : Str) (data : List Nat) (contentType : Str) :
    FileInfo :=
  { objectName := objectName
    originalFilename := originalFilename
    size := data.length
    contentType := contentType
    payloadBase64 := base64Encode data }

/-- The storage gateway, as the oracle the retrieval code consults: the
result of `ListPayloads` and, per object name, the result of
`GetPayload`. -/
structure StorageOracle where
  listResult : Except Str (List Str)
  getResult : Str → Except Str (List Nat)

/-- The aggregation loop of `RetrievePayloads`: walk the listed objects,
keep the ones passing the prefix filter, skip any whose fetch fails, and
format the rest. -/
def aggregateLoop (st : StorageOracle) (requestID : Str) : List Str → List FileInfo
  | [] => []
  | obj :: rest =>
    if matchFilter requestID obj then
      match st.getResult obj with
      | .error _ => aggregateLoop st requestID rest
      | .ok payload =>
        formatFileInfo obj (extractOriginalFilename obj) payload (determineContentType obj) ::
          aggregateLoop st requestID rest
    else aggregateLoop st requestID rest

/-- Model of `DefaultPayloadService.RetrievePayloads`, aggregation stage (listing,
prefix filtering, per-object fetching, and the emptiness check); the
formatting of a non-empty result never fails and is kept as the matched
list itself. -/
def retrievePayloadsCore (st : StorageOracle) (requestID : Str) : Except Str (List FileInfo) :=
  match st.listResult with
  | .error e => .error ("error listing payloads: ".data ++ e)
  | .ok objects =>
    let matched := aggregateLoop st requestID objects
    if matched.length = 0 then .error "no payloads found for request_id".data
    else .ok matched

/-- Reference extension, written from the specified naming rule: the
filename's last dot-extension, dot included, case preserved, empty when
the filename has no dot. -/
def claimExt (filename : Str) : Str :=
  if '.' ∈ filename then '.' :: (filename.reverse.takeWhile (fun c => c ≠ '.')).reverse
  else []

/-- The specified content-type extension table in priority order. -/
def ctPriority : List (Str × Str) :=
  [("json".data, ".json".data), ("text".data, ".txt".data),
   ("image".data, ".img".data), ("multipart".data, ".multipart".data)]

/-- Reference content-type extension, written from the specified rule: the
first table entry whose key occurs in the content type, else .bin. -/
def claimCtExt (contentType : Str) : Str :=
  match ctPriority.find? (fun p => containsStr contentType p.1) with
  | some p => p.2
  | none => ".bin".data

/-- Reference object name, written from the specified naming rule: for a
non-empty filename, the eventID, an underscore, the filename with its
last extension removed, then that extension; for an empty filename,
eventID_payload plus the content-type extension. -/
def claimObjectName (eventID filename contentType : Str) : Str :=
  if filename ≠ [] then
    eventID ++ '_' :: (trimSuffix filename (claimExt filename) ++ claimExt filename)
  else
    eventID ++ '_' :: ("payload".data ++ claimCtExt contentType)

/-! Supporting lemmas. -/

theorem splitOnChar_ne_nil (sep : Char) (l : Str) : splitOnChar sep l ≠ [] := by
  cases l with
  | nil => simp [splitOnChar]
  | cons c rest =>
    simp only [splitOnChar]
    cases splitOnChar sep rest with
    | nil => simp
    | cons h t => by_cases hc : c = sep <;> simp [hc]

theorem splitOnChar_cons_sep (sep : Char) (l : Str) :
    splitOnChar sep (sep :: l) = [] :: splitOnChar sep l := by
  have hne := splitOnChar_ne_nil sep l
  simp only [splitOnChar]
  cases hs : splitOnChar sep l with
  | nil => exact absurd hs hne
  | cons h t => simp

theorem splitOnChar_append (sep : Char) (a l : Str) (ha : sep ∉ a) (h : Str) (t : List Str)
    (hl : splitOnChar sep l = h :: t) :
    splitOnChar sep (a ++ l) = (a ++ h) :: t := by
  induction a with
  | nil => simpa using hl
  | cons c a2 ih =>
    have hc : c ≠ sep := fun e => ha (e ▸ List.mem_cons_self c a2)
    have ha2 : sep ∉ a2 := fun m => ha (List.mem_cons_of_mem c m)
    simp only [List.cons_append, splitOnChar, List.append_eq]
    rw [ih ha2]
    simp [hc]

theorem joinChar_splitOnChar (sep : Char) (l : Str) :
    joinChar sep (splitOnChar sep l) = l := by
  induction l with
  | nil => rfl
  | cons c rest ih =>
    cases hs : splitOnChar sep rest with
    | nil => exact absurd hs (splitOnChar_ne_nil sep rest)
    | cons h t =>
      rw [hs] at ih
      simp only [splitOnChar, hs]
      by_cases hc : c = sep
      · subst hc
        simp [joinChar, ih]
      · simp only [if_neg hc]
        cases t with
        | nil => simp [joinChar] at ih ⊢; simp [ih]
        | cons u v =>
          simp [joinChar] at ih ⊢
          simp [ih]

theorem digitChar_ne_underscore : ∀ m : Nat, m < 16 → Nat.digitChar m ≠ '_' := by decide

theorem decDigitsAux_no_underscore (fuel n : Nat) : '_' ∉ decDigitsAux fuel n := by
  induction fuel generalizing n with
  | zero => simp [decDigitsAux]
  | succ fuel ih =>
    simp only [decDigitsAux]
    by_cases h : n = 0
    · simp [h]
    · simp only [if_neg h, List.mem_append, List.mem_singleton]
      rintro (hm | hm)
      · exact ih _ hm
      · have hb : n % 10 < 16 := by
          have := Nat.mod_lt n (show 0 < 10 by omega)
          omega
        exact digitChar_ne_underscore _ hb hm.symm

theorem natDec_no_underscore (n : Nat) : '_' ∉ natDec n := by
  unfold natDec
  split
  · decide
  · exact decDigitsAux_no_underscore n n

theorem natDec_ne_nil (n : Nat) : natDec n ≠ [] := by
  unfold natDec
  split
  · simp
  · cases n with
    | zero => simp_all
    | succ m =>
      simp only [decDigitsAux]
      rw [if_neg (Nat.succ_ne_zero m)]
      simp

theorem hexEncode_no_underscore (bs : List Nat) : '_' ∉ hexEncode bs := by
  induction bs with
  | nil => simp [hexEncode]
  | cons b rest ih =>
    simp only [hexEncode, List.mem_cons]
    rintro (h | h | h)
    · exact digitChar_ne_underscore _ (Nat.mod_lt _ (by omega)) h.symm
    · exact digitChar_ne_underscore _ (by
        have := Nat.mod_lt b (show 0 < 16 by omega)
        omega) h.symm
    · exact ih h

theorem generate_idShape (ts : Nat) (rb : Option (List Nat)) (nano : Nat) :
    idShape (generate ts rb nano) := by
  cases rb with
  | none =>
    exact ⟨natDec ts, natDec nano, rfl, natDec_ne_nil ts,
      natDec_no_underscore ts, natDec_no_underscore nano⟩
  | some bs =>
    exact ⟨natDec ts, hexEncode bs, rfl, natDec_ne_nil ts,
      natDec_no_underscore ts, hexEncode_no_underscore bs⟩

theorem prefix_sep_split {sep : Char} {a b x y : Str} (ha : sep ∉ a) (hx : sep ∉ x)
    (h : a ++ sep :: b <+: x ++ sep :: y) : a = x ∧ b <+: y := by
  induction a generalizing x with
  | nil =>
    cases x with
    | nil => simpa using h
    | cons d x2 =>
      exfalso
      simp only [List.nil_append, List.cons_append, List.cons_prefix_cons] at h
      exact hx (h.1 ▸ List.mem_cons_self d x2)
  | cons c a2 ih =>
    cases x with
    | nil =>
      exfalso
      simp only [List.cons_append, List.nil_append, List.cons_prefix_cons] at h
      exact ha (h.1 ▸ List.mem_cons_self c a2)
    | cons d x2 =>
      simp only [List.cons_append, List.cons_prefix_cons] at h
      obtain ⟨rfl, h2⟩ := h
      have ha2 : sep ∉ a2 := fun m => ha (List.mem_cons_of_mem c m)
      have hx2 : sep ∉ x2 := fun m => hx (List.mem_cons_of_mem c m)
      obtain ⟨rfl, h3⟩ := ih ha2 hx2 h2
      exact ⟨rfl, h3⟩

theorem idShape_prefix_eq {x y p q : Str} (hx : idShape x) (hy : idShape y)
    (h : x ++ '_' :: p <+: y ++ '_' :: q) : x = y := by
  obtain ⟨a, b, rfl, _, ha, hb⟩ := hx
  obtain ⟨c, d, rfl, _, hc, hd⟩ := hy
  rw [List.append_assoc, List.cons_append, List.append_assoc, List.cons_append] at h
  obtain ⟨rfl, h2⟩ := prefix_sep_split ha hc h
  obtain ⟨rfl, _⟩ := prefix_sep_split hb hd h2
  rfl

theorem startsWith_underscore (rid s : Str) :
    startsWith (rid ++ '_' :: s) (rid ++ ['_']) = true := by
  unfold startsWith
  rw [ List.isPrefixOf_iff_prefix]
  have he : rid ++ '_' :: s = (rid ++ ['_']) ++ s := by simp
  rw [he]
  exact List.prefix_append _ _

theorem extRev_no_dot {r : Str} (hs : '/' ∉ r) (hd : '.' ∉ r) : extRev r = none := by
  induction r with
  | nil => rfl
  | cons c rest ih =>
    have hc1 : c ≠ '/' := fun e => hs (e ▸ List.mem_cons_self c rest)
    have hc2 : c ≠ '.' := fun e => hd (e ▸ List.mem_cons_self c rest)
    have hs2 : '/' ∉ rest := fun m => hs (List.mem_cons_of_mem c m)
    have hd2 : '.' ∉ rest := fun m => hd (List.mem_cons_of_mem c m)
    simp [extRev, hc1, hc2, ih hs2 hd2]

theorem extRev_with_dot {r : Str} (hs : '/' ∉ r) (hd : '.' ∈ r) :
    extRev r = some (r.takeWhile (fun c => c ≠ '.') ++ ['.']) := by
  induction r with
  | nil => cases hd
  | cons c rest ih =>
    have hc1 : c ≠ '/' := fun e => hs (e ▸ List.mem_cons_self c rest)
    have hs2 : '/' ∉ rest := fun m => hs (List.mem_cons_of_mem c m)
    by_cases hc2 : c = '.'
    · subst hc2
      simp [extRev, List.takeWhile_cons]
    · have hd2 : '.' ∈ rest := by
        cases List.mem_cons.mp hd with
        | inl e => exact absurd e.symm hc2
        | inr m => exact m
      simp [extRev, hc1, hc2, ih hs2 hd2, List.takeWhile_cons]

theorem goExt_eq_claimExt {f : Str} (hs : '/' ∉ f) : goExt f = claimExt f := by
  unfold goExt claimExt
  have hsr : '/' ∉ f.reverse := by simpa using hs
  by_cases hd : '.' ∈ f
  · have hdr : '.' ∈ f.reverse := by simpa using hd
    rw [extRev_with_dot hsr hdr, if_pos hd]
    simp
  · have hdr : '.' ∉ f.reverse := by simpa using hd
    rw [extRev_no_dot hsr hdr, if_neg hd]

theorem goBase_no_slash {f : Str} (hne : f ≠ []) (hs : '/' ∉ f) : goBase f = f := by
  unfold goBase
  rw [if_neg hne]
  have hdrop : f.reverse.dropWhile (fun c => c = '/') = f.reverse := by
    cases hr : f.reverse with
    | nil => rfl
    | cons c rest =>
      have hc : c ≠ '/' := by
        intro e
        apply hs
        rw [← List.mem_reverse, hr, e]
        exact List.mem_cons_self _ _
      simp [List.dropWhile_cons, hc]
  have htake : f.reverse.takeWhile (fun c => c ≠ '/') = f.reverse := by
    rw [List.takeWhile_eq_self_iff]
    intro c hcm
    have hmem : c ∈ f := List.mem_reverse.mp hcm
    simp only [decide_eq_true_eq]
    intro e
    exact hs (e ▸ hmem)
  simp only [hdrop, htake]
  have hner : f.reverse ≠ [] := by simpa using hne
  rw [if_neg hner]
  simp

theorem ctExt_eq_claimCtExt (ct : Str) : ctExt ct = claimCtExt ct := by
  simp only [ctExt, claimCtExt, ctPriority, List.find?]
  by_cases h1 : containsStr ct "json".data <;>
    by_cases h2 : containsStr ct "text".data <;>
      by_cases h3 : containsStr ct "image".data <;>
        by_cases h4 : containsStr ct "multipart".data <;>
          simp [h1, h2, h3, h4]

theorem mpUnits_eq_filterMap (requestID : Str) (parts : List MPart) :
    mpUnits requestID parts = parts.filterMap (fun p =>
      if p.fileName = [] then none
      else
        match p.content with
        | none => none
        | some d => some { objectName := mpGenerateObjectName requestID p.fileName,
                           data := d,
                           contentType := detectFromFilename p.fileName,
                           filename := p.fileName }) := by
  induction parts with
  | nil => rfl
  | cons p rest ih =>
    simp only [mpUnits, List.filterMap_cons]
    by_cases hf : p.fileName = []
    · simp [hf, ih]
    · cases hc : p.content with
      | none => simp [hf, hc, ih]
      | some d => simp [hf, hc, ih]

theorem mpUnits_map_data (requestID : Str) (parts : List MPart)
    (hread : ∀ p ∈ parts, p.content ≠ none) :
    (mpUnits requestID parts).map ProcessedPayload.data =
      (parts.filter (fun p => !p.fileName.isEmpty)).map (fun p => p.content.getD []) := by
  induction parts with
  | nil => rfl
  | cons p rest ih =>
    have hp : p.content ≠ none := hread p (List.mem_cons_self p rest)
    have hrest : ∀ q ∈ rest, q.content ≠ none := fun q m => hread q (List.mem_cons_of_mem p m)
    cases hc : p.content with
    | none => exact absurd hc hp
    | some d =>
      by_cases hf : p.fileName = []
      · simp [mpUnits, List.filter_cons, hf, hc, ih hrest]
      · simp [mpUnits, List.filter_cons, hf, hc, ih hrest]

theorem mpUnits_name (requestID : Str) (parts : List MPart) (u : ProcessedPayload)
    (hu : u ∈ mpUnits requestID parts) :
    startsWith u.objectName (requestID ++ ['_']) = true := by
  induction parts with
  | nil => cases hu
  | cons p rest ih =>
    simp only [mpUnits] at hu
    by_cases hf : p.fileName = []
    · rw [if_pos hf] at hu
      exact ih hu
    · rw [if_neg hf] at hu
      cases hc : p.content with
      | none => rw [hc] at hu; exact ih hu
      | some d =>
        rw [hc] at hu
        cases List.mem_cons.mp hu with
        | inr m => exact ih m
        | inl e =>
          subst e
          show startsWith (mpGenerateObjectName requestID p.fileName) _ = true
          unfold mpGenerateObjectName
          rw [if_neg hf]
          exact startsWith_underscore _ _

theorem generateObjectName_starts (requestID filename contentType : Str) :
    startsWith (generateObjectName requestID filename contentType) (requestID ++ ['_']) = true := by
  unfold generateObjectName
  by_cases hf : filename ≠ []
  · rw [if_pos hf]
    exact startsWith_underscore _ _
  · rw [if_neg hf]
    exact startsWith_underscore _ _

theorem aggregateLoop_nil_iff (st : StorageOracle) (requestID : Str) (objs : List Str) :
    aggregateLoop st requestID objs = [] ↔
      ∀ obj ∈ objs, matchFilter requestID obj = true → ∃ e, st.getResult obj = .error e := by
  induction objs with
  | nil => simp [aggregateLoop]
  | cons obj rest ih =>
    simp only [aggregateLoop]
    by_cases hm : matchFilter requestID obj
    · rw [if_pos hm]
      cases hg : st.getResult obj with
      | error e =>
        rw [ih]
        constructor
        · rintro hall o ho hmo
          cases List.mem_cons.mp ho with
          | inl e2 => exact e2 ▸ ⟨e, hg⟩
          | inr m => exact hall o m hmo
        · intro hall o ho hmo
          exact hall o (List.mem_cons_of_mem obj ho) hmo
      | ok d =>
        constructor
        · intro h
          cases h
        · intro hall
          obtain ⟨e, he⟩ := hall obj (List.mem_cons_self obj rest) hm
          rw [hg] at he
          cases he
    · rw [if_neg hm, ih]
      constructor
      · rintro hall o ho hmo
        cases List.mem_cons.mp ho with
        | inl e2 =>
          subst e2
          exact absurd hmo (by simpa using hm)
        | inr m => exact hall o m hmo
      · intro hall o ho hmo
        exact hall o (List.mem_cons_of_mem obj ho) hmo

theorem aggregateLoop_ne_nil (st : StorageOracle) (requestID : Str) (objs : List Str)
    (obj : Str) (ho : obj ∈ objs) (hm : matchFilter requestID obj = true)
    (d : List Nat) (hg : st.getResult obj = .ok d) :
    aggregateLoop st requestID objs ≠ [] := by
  intro hnil
  obtain ⟨e, he⟩ := (aggregateLoop_nil_iff st requestID objs).mp hnil obj ho hm
  rw [hg] at he
  cases he

/-! Claim theorems. -/

/-- C1 fails on the code: the Identifier Generator emits an underscore on
both the normal path (timestamp, underscore, hex-encoded random bytes)
and the fallback path (timestamp, underscore, nanosecond timestamp). -/
theorem c1_counterexample :
    '_' ∈ generate 0 (some [0, 0, 0, 0, 0, 0, 0, 0]) 0 ∧ '_' ∈ generate 0 none 0 := by
  decide

/-- C1 amended: every generated EventID contains exactly one underscore —
the separator between the timestamp token and the random-hex (or fallback
nanosecond) token; both tokens are underscore-free and the first is
nonempty, so downstream prefix parsing treats the first two
underscore-separated tokens as the EventID. -/
theorem c1_amended_shape (ts : Nat) (rb : Option (List Nat)) (nano : Nat) :
    (generate ts rb nano).count '_' = 1 ∧ idShape (generate ts rb nano) := by
  refine ⟨?_, generate_idShape ts rb nano⟩
  obtain ⟨a, b, he, _, ha, hb⟩ := generate_idShape ts rb nano
  rw [he]
  rw [List.count_append, List.count_cons]
  rw [List.count_eq_zero_of_not_mem ha, List.count_eq_zero_of_not_mem hb]
  simp

/-- C7 fails as stated: for an eventID that itself contains no underscore
(an "opaque token" by the specified generator contract), the code returns
an empty original filename instead of the remainder, because it always
skips the first two underscore-separated tokens.  With eventID "abc" and
stored name "abc_dup.txt" the remainder "dup.txt" is not reconstructed. -/
theorem c7_counterexample :
    extractOriginalFilename "abc_dup.txt".data ≠ "dup.txt".data := by
  decide

/-- C7 amended: for every eventID of the generated shape (a nonempty
underscore-free token, one underscore, an underscore-free token) and
every remainder, retrieval on the stored name eventID + "_" + remainder
reports the original filename as absent when the remainder starts with
"payload" and as the remainder verbatim otherwise. -/
theorem c7_amended_extract (id rem : Str) (hid : idShape id) :
    extractOriginalFilename (id ++ '_' :: rem) =
      if startsWith rem "payload".data then [] else rem := by
  obtain ⟨a, b, rfl, hne, ha, hb⟩ := hid
  obtain ⟨h, t, hsplit⟩ : ∃ h t, splitOnChar '_' rem = h :: t := by
    cases hs : splitOnChar '_' rem with
    | nil => exact absurd hs (splitOnChar_ne_nil '_' rem)
    | cons h t => exact ⟨h, t, rfl⟩
  have hb2 : splitOnChar '_' (b ++ '_' :: rem) = b :: splitOnChar '_' rem := by
    have := splitOnChar_append '_' b ('_' :: rem) hb [] (splitOnChar '_' rem)
      (splitOnChar_cons_sep '_' rem)
    simpa using this
  have hfull : splitOnChar '_' ((a ++ '_' :: b) ++ '_' :: rem) =
      a :: b :: splitOnChar '_' rem := by
    rw [List.append_assoc, List.cons_append]
    have htail : splitOnChar '_' ('_' :: (b ++ '_' :: rem)) =
        [] :: b :: splitOnChar '_' rem := by
      rw [splitOnChar_cons_sep, hb2]
    have := splitOnChar_append '_' a ('_' :: (b ++ '_' :: rem)) ha []
      (b :: splitOnChar '_' rem) htail
    simpa using this
  unfold extractOriginalFilename
  rw [hfull, hsplit]
  have hlen : (a :: b :: h :: t).length > 2 := by simp
  rw [if_pos hlen]
  have hdrop : (a :: b :: h :: t).drop 2 = h :: t := rfl
  rw [hdrop, ← hsplit, joinChar_splitOnChar]

/-- C7 amended witness at a concrete generated-shape eventID. -/
theorem c7_witness :
    extractOriginalFilename ("1_a".data ++ '_' :: "dup.txt".data) =
      if startsWith "dup.txt".data "payload".data then [] else "dup.txt".data :=
  c7_amended_extract "1_a".data "dup.txt".data
    ⟨['1'], ['a'], rfl, by decide, by decide, by decide⟩

/-- C10: the second disjunct of the retrieval match filter is redundant —
a name starting with requestID + "_payload" also starts with
requestID + "_", so the whole filter equals the single prefix test. -/
theorem c10_filter_redundant (requestID obj : Str) :
    (startsWith obj (requestID ++ '_' :: "payload".data) = true →
      startsWith obj (requestID ++ ['_']) = true) ∧
    matchFilter requestID obj = startsWith obj (requestID ++ ['_']) := by
  have himp : startsWith obj (requestID ++ '_' :: "payload".data) = true →
      startsWith obj (requestID ++ ['_']) = true := by
    intro h
    unfold startsWith at h ⊢
    rw [ List.isPrefixOf_iff_prefix] at h ⊢
    have hsub : requestID ++ ['_'] <+: requestID ++ '_' :: "payload".data := by
      rw [show requestID ++ '_' :: "payload".data = (requestID ++ ['_']) ++ "payload".data by simp]
      exact List.prefix_append _ _
    exact hsub.trans h
  refine ⟨himp, ?_⟩
  unfold matchFilter
  cases h1 : startsWith obj (requestID ++ ['_']) with
  | true => simp [h1]
  | false =>
    cases h2 : startsWith obj (requestID ++ '_' :: "payload".data) with
    | true => rw [himp h2] at h1; cases h1
    | false => simp

/-- C10 witness at a concrete name carrying the payload token. -/
theorem c10_witness :
    matchFilter "1_a".data "1_a_payload.bin".data =
      startsWith "1_a_payload.bin".data ("1_a".data ++ ['_']) :=
  (c10_filter_redundant "1_a".data "1_a_payload.bin".data).2

/-- C2 fails on the code: with a parseable boundary, a first part whose
body read fails, and a second readable part, the multipart processor
returns the second part's unit and no error — the read failure is skipped
(`continue`), not turned into an abort. -/
theorem c2_counterexample :
    mpProcess "id".data true
        ⟨[⟨"a.txt".data, none⟩, ⟨"b.txt".data, some [104, 105]⟩], false⟩ =
      .ok [⟨"id_b.txt".data, [104, 105], "text/plain".data, "b.txt".data⟩] := by
  rfl

/-- C2 amended: a part whose bytes cannot be read to completion is
skipped, never fatal: on a parseable stream with no framing error, the
decomposition returns without error exactly the units of the
filename-bearing parts whose bodies were fully read, in order; only a
media-type parse failure or a part-framing (NextPart) failure yields an
error, and then no units at all. -/
theorem c2_amended_skip (requestID : Str) (parseOk : Bool) (stream : MPStream) :
    mpProcess requestID parseOk stream =
      (if parseOk = false then .error "error parsing media type".data
       else if stream.terminalErr then .error "error reading part".data
       else .ok (stream.parts.filterMap (fun p =>
         if p.fileName = [] then none
         else
           match p.content with
           | none => none
           | some d => some { objectName := mpGenerateObjectName requestID p.fileName,
                              data := d,
                              contentType := detectFromFilename p.fileName,
                              filename := p.fileName }))) := by
  unfold mpProcess
  rw [mpUnits_eq_filterMap]

/-- C5: a well-formed multipart stream (parseable media type, no framing
error) whose parts all read successfully yields exactly one unit per
filename-bearing part, in part order, with byte-identical content; in
particular a stream of only non-file fields yields zero units and no
error. -/
theorem c5_roundtrip (requestID : Str) (parts : List MPart)
    (hread : ∀ p ∈ parts, p.content ≠ none) :
    ∃ units, mpProcess requestID true ⟨parts, false⟩ = .ok units ∧
      units.map ProcessedPayload.data =
        (parts.filter (fun p => !p.fileName.isEmpty)).map (fun p => p.content.getD []) ∧
      units.length = (parts.filter (fun p => !p.fileName.isEmpty)).length := by
  refine ⟨mpUnits requestID parts, ?_, ?_, ?_⟩
  · unfold mpProcess
    simp
  · exact mpUnits_map_data requestID parts hread
  · have := congrArg List.length (mpUnits_map_data requestID parts hread)
    simpa using this

/-- C5 witness: two file parts around one non-file field. -/
theorem c5_witness :
    ∃ units, mpProcess "1_a".data true
        ⟨[⟨"a.txt".data, some [104, 105]⟩, ⟨[], some [120]⟩,
          ⟨"b.json".data, some [123, 125]⟩], false⟩ = .ok units ∧
      units.map ProcessedPayload.data =
        (([⟨"a.txt".data, some [104, 105]⟩, ⟨[], some [120]⟩,
          ⟨"b.json".data, some [123, 125]⟩] : List MPart).filter
            (fun p => !p.fileName.isEmpty)).map (fun p => p.content.getD []) ∧
      units.length =
        (([⟨"a.txt".data, some [104, 105]⟩, ⟨[], some [120]⟩,
          ⟨"b.json".data, some [123, 125]⟩] : List MPart).filter
            (fun p => !p.fileName.isEmpty)).length :=
  c5_roundtrip "1_a".data _ (by decide)

/-- C3 fails on the code: with declared type text/plain (which
`mime.ParseMediaType` returns unchanged, as modelled by the identity
oracle on this parameter-free lowercase input) and filename doc.json, the
emitted content type is the filename-derived application/json even though
the normalized header type text/plain is not the generic binary type. -/
theorem c3_counterexample :
    detectFromContentType (fun ct => some ct) "text/plain".data = "text/plain".data ∧
    "text/plain".data ≠ octetStream ∧
    processPayload (fun ct => some ct) true ⟨[], false⟩ "id".data []
        "text/plain".data "doc.json".data =
      .ok [⟨"id_doc.json".data, [], "application/json".data, "doc.json".data⟩] ∧
    "application/json".data ≠ "text/plain".data := by
  refine ⟨rfl, by decide, rfl, by decide⟩

/-- C3 amended: in the single-unit case with a non-empty filename, the
emitted content type equals the filename-derived type whenever that type
is not the generic binary type, and equals the normalized header type
otherwise — the filename signal wins on its own strength, not on the
header being generic. -/
theorem c3_amended_content (parseMediaType : Str → Option Str) (parseOk : Bool)
    (stream : MPStream) (requestID : Str) (data : List Nat) (contentType filename : Str)
    (hf : filename ≠ [])
    (hmp : startsWith (detectFromContentType parseMediaType contentType)
        "multipart/form-data".data = false) :
    processPayload parseMediaType parseOk stream requestID data contentType filename =
      .ok [{ objectName := generateObjectName requestID filename
               (detectFromContentType parseMediaType contentType),
             data := data,
             contentType :=
               if detectFromFilename filename ≠ octetStream then detectFromFilename filename
               else detectFromContentType parseMediaType contentType,
             filename := filename }] := by
  unfold processPayload
  simp only [hmp, Bool.false_eq_true, if_false]
  by_cases hd : detectFromFilename filename ≠ octetStream
  · simp [hf, hd]
  · simp [hf, hd]

/-- C3 amended witness: header text/html, filename a.png — the emitted
type is the filename-derived image/png. -/
theorem c3_witness :
    processPayload (fun ct => some ct) true ⟨[], false⟩ "id".data []
        "text/html".data "a.png".data =
      .ok [{ objectName := generateObjectName "id".data "a.png".data
               (detectFromContentType (fun ct => some ct) "text/html".data),
             data := [],
             contentType :=
               if detectFromFilename "a.png".data ≠ octetStream
               then detectFromFilename "a.png".data
               else detectFromContentType (fun ct => some ct) "text/html".data,
             filename := "a.png".data }] :=
  c3_amended_content (fun ct => some ct) true ⟨[], false⟩ "id".data []
    "text/html".data "a.png".data (by decide) (by decide)

/-- C6 fails as stated for a filename containing a path separator: the
code applies `filepath.Base` first, so "a/b.txt" is stored as
"id_b.txt", while the claimed reference — the filename with its last
extension split off — gives "id_a/b.txt". -/
theorem c6_counterexample :
    generateObjectName "id".data "a/b.txt".data [] ≠
      claimObjectName "id".data "a/b.txt".data [] := by
  decide

/-- C6 amended: restricted to filenames without a path separator (on any
other filename the code first reduces to the last path element), the
Namer agrees everywhere with the claim's reference definition: non-empty
filenames give eventID_base+ext with ext the last dot-extension (case
preserved, empty if no dot) and base the filename without it,
independent of the content type; empty filenames give eventID_payload
plus the priority-scanned content-type extension; the function is total. -/
theorem c6_amended_name (eventID filename contentType : Str) (hs : '/' ∉ filename) :
    generateObjectName eventID filename contentType =
      claimObjectName eventID filename contentType := by
  unfold generateObjectName claimObjectName
  by_cases hne : filename = []
  · subst hne
    simp [ctExt_eq_claimCtExt]
  · simp only [ne_eq, hne, not_false_iff, if_pos]
    rw [goBase_no_slash hne hs, goExt_eq_claimExt hs]

/-- C6 amended witness at a separator-free filename. -/
theorem c6_witness :
    generateObjectName "id".data "b.txt".data [] =
      claimObjectName "id".data "b.txt".data [] :=
  c6_amended_name "id".data "b.txt".data [] (by decide)

/-- C4: the retrieval aggregation errors exactly when the storage listing
fails or when no prefix-matched object is fetched successfully; one
successful matched fetch guarantees a non-empty, non-error result even if
every other fetch fails; and on a listing failure the result does not
depend on the per-object fetcher at all. -/
theorem c4_aggregation_errors (st : StorageOracle) (requestID : Str) :
    ((∃ e, retrievePayloadsCore st requestID = .error e) ↔
      (∃ e, st.listResult = .error e) ∨
      (∃ objs, st.listResult = .ok objs ∧
        ∀ obj ∈ objs, matchFilter requestID obj = true → ∃ e, st.getResult obj = .error e)) ∧
    (∀ objs obj, st.listResult = .ok objs → obj ∈ objs → matchFilter requestID obj = true →
      (∃ d, st.getResult obj = .ok d) →
      ∃ fs, retrievePayloadsCore st requestID = .ok fs ∧ fs ≠ []) ∧
    (∀ e g2, st.listResult = .error e →
      retrievePayloadsCore ⟨st.listResult, g2⟩ requestID = retrievePayloadsCore st requestID) := by
  obtain ⟨lr, gr⟩ := st
  cases lr with
  | error e =>
    refine ⟨⟨fun _ => Or.inl ⟨e, rfl⟩, fun _ => ⟨_, rfl⟩⟩, ?_, ?_⟩
    · rintro objs obj h
      cases h
    · intro e2 g2 _
      rfl
  | ok objs =>
    have hloop := aggregateLoop_nil_iff ⟨.ok objs, gr⟩ requestID objs
    refine ⟨?_, ?_, ?_⟩
    · by_cases hnil : aggregateLoop ⟨.ok objs, gr⟩ requestID objs = []
      · constructor
        · intro _
          exact Or.inr ⟨objs, rfl, hloop.mp hnil⟩
        · intro _
          refine ⟨"no payloads found for request_id".data, ?_⟩
          unfold retrievePayloadsCore
          simp only []
          rw [if_pos (by rw [List.length_eq_zero]; exact hnil)]
      · constructor
        · rintro ⟨e2, he⟩
          unfold retrievePayloadsCore at he
          simp only [] at he
          rw [if_neg (by rw [List.length_eq_zero]; exact hnil)] at he
          cases he
        · rintro (⟨e2, he⟩ | ⟨objs2, hok, hall⟩)
          · cases he
          · exfalso
            injection hok with hinj
            subst hinj
            exact hnil (hloop.mpr hall)
    · rintro objs2 obj hok hmem hm ⟨d, hd⟩
      have hinj : objs2 = objs := by
        injection hok with h3
        exact h3.symm
      subst hinj
      have hne := aggregateLoop_ne_nil ⟨.ok objs2, gr⟩ requestID objs2 obj hmem hm d hd
      refine ⟨aggregateLoop ⟨.ok objs2, gr⟩ requestID objs2, ?_, hne⟩
      unfold retrievePayloadsCore
      simp only []
      rw [if_neg (by rw [List.length_eq_zero]; exact hne)]
    · intro e2 g2 h
      cases h

/-- C4 witness: one matched object whose fetch succeeds. -/
theorem c4_witness :
    ∃ fs, retrievePayloadsCore ⟨.ok ["1_a_x.txt".data], fun _ => .ok [7]⟩ "1_a".data =
        .ok fs ∧ fs ≠ [] :=
  (c4_aggregation_errors ⟨.ok ["1_a_x.txt".data], fun _ => .ok [7]⟩ "1_a".data).2.1
    ["1_a_x.txt".data] "1_a_x.txt".data rfl (by decide) (by decide) ⟨[7], rfl⟩

/-- C8: every unit an ok decomposition produces — single-unit path or
multipart path — has an object name beginning with the requestID followed
by an underscore. -/
theorem c8_name_invariant (parseMediaType : Str → Option Str) (parseOk : Bool)
    (stream : MPStream) (requestID : Str) (data : List Nat) (contentType filename : Str)
    (payloads : List ProcessedPayload) (u : ProcessedPayload)
    (hp : processPayload parseMediaType parseOk stream requestID data contentType filename =
      .ok payloads)
    (hu : u ∈ payloads) :
    startsWith u.objectName (requestID ++ ['_']) = true := by
  unfold processPayload at hp
  cases hmp : startsWith (detectFromContentType parseMediaType contentType)
      "multipart/form-data".data with
  | true =>
    simp only [hmp, if_true] at hp
    unfold mpProcess at hp
    by_cases hpo : parseOk = false
    · rw [if_pos hpo] at hp
      cases hp
    · rw [if_neg hpo] at hp
      by_cases hte : stream.terminalErr
      · rw [if_pos hte] at hp
        cases hp
      · rw [if_neg hte] at hp
        injection hp with h2
        subst h2
        exact mpUnits_name requestID stream.parts u hu
  | false =>
    simp only [hmp, Bool.false_eq_true, if_false] at hp
    injection hp with h2
    subst h2
    rw [List.mem_singleton] at hu
    subst hu
    exact generateObjectName_starts requestID filename
      (detectFromContentType parseMediaType contentType)

/-- C8 witness on the single-unit path. -/
theorem c8_witness :
    startsWith
      (⟨"1_a_b.txt".data, ([] : List Nat), "text/plain".data, "b.txt".data⟩ :
        ProcessedPayload).objectName
      ("1_a".data ++ ['_']) = true :=
  c8_name_invariant (fun ct => some ct) true ⟨[], false⟩ "1_a".data []
    "text/plain".data "b.txt".data
    [⟨"1_a_b.txt".data, [], "text/plain".data, "b.txt".data⟩]
    ⟨"1_a_b.txt".data, [], "text/plain".data, "b.txt".data⟩ rfl (by decide)

/-- C9: two distinct generated event ids storing the same filename
dup.txt yield distinct object names; each id's retrieval filter accepts
its own stored name and rejects the other id's stored name. -/
theorem c9_distinct (id1 id2 ct1 ct2 : Str) (h1 : idShape id1) (h2 : idShape id2)
    (hne : id1 ≠ id2) :
    generateObjectName id1 "dup.txt".data ct1 ≠ generateObjectName id2 "dup.txt".data ct2 ∧
    matchFilter id1 (generateObjectName id1 "dup.txt".data ct1) = true ∧
    matchFilter id2 (generateObjectName id2 "dup.txt".data ct2) = true ∧
    matchFilter id1 (generateObjectName id2 "dup.txt".data ct2) = false ∧
    matchFilter id2 (generateObjectName id1 "dup.txt".data ct1) = false := by
  have hgen : ∀ id ct, generateObjectName id "dup.txt".data ct =
      id ++ '_' :: "dup.txt".data := fun id ct => rfl
  have hcross : ∀ x y : Str, idShape x → idShape y → x ≠ y →
      matchFilter x (y ++ '_' :: "dup.txt".data) = false := by
    intro x y hx hy hxy
    have hnp : ∀ p : Str, (x ++ '_' :: p).isPrefixOf (y ++ '_' :: "dup.txt".data) = false := by
      intro p
      rw [Bool.eq_false_iff]
      intro htrue
      rw [ List.isPrefixOf_iff_prefix] at htrue
      exact hxy (idShape_prefix_eq hx hy htrue)
    have hfirst : (x ++ ['_']).isPrefixOf (y ++ '_' :: "dup.txt".data) = false := hnp []
    have hsecond : (x ++ '_' :: "payload".data).isPrefixOf
        (y ++ '_' :: "dup.txt".data) = false := hnp "payload".data
    simp [matchFilter, startsWith, hfirst, hsecond]
  refine ⟨?_, ?_, ?_, ?_, ?_⟩
  · rw [hgen, hgen]
    intro h
    exact hne (@idShape_prefix_eq id1 id2 "dup.txt".data "dup.txt".data h1 h2 (by rw [h]))
  · rw [hgen]
    simp [matchFilter, startsWith_underscore]
  · rw [hgen]
    simp [matchFilter, startsWith_underscore]
  · rw [hgen]
    exact hcross id1 id2 h1 h2 hne
  · rw [hgen]
    exact hcross id2 id1 h2 h1 (fun e => hne e.symm)

/-- C9 witness at two concrete generated-shape ids. -/
theorem c9_witness :
    generateObjectName "1_a".data "dup.txt".data [] ≠
        generateObjectName "1_b".data "dup.txt".data [] ∧
    matchFilter "1_a".data (generateObjectName "1_a".data "dup.txt".data []) = true ∧
    matchFilter "1_b".data (generateObjectName "1_b".data "dup.txt".data []) = true ∧
    matchFilter "1_a".data (generateObjectName "1_b".data "dup.txt".data []) = false ∧
    matchFilter "1_b".data (generateObjectName "1_a".data "dup.txt".data []) = false :=
  c9_distinct "1_a".data "1_b".data [] []
    ⟨['1'], ['a'], rfl, by decide, by decide, by decide⟩
    ⟨['1'], ['b'], rfl, by decide, by decide, by decide⟩
    (by decide)

end SimpleDepot
